import Mathlib

set_option maxRecDepth 16384

/-!
Verification development for the Result Reconciliation & Presentation Engine
of the Presales AWS Architect Copilot frontend.

The definitions below are a shallow embedding of the JavaScript source:

* `src/frontend/src/components/ChatAgent.js` (the `Dashboard` component:
  step classification heuristics, `renderPricingTable`, download listing);
* `src/frontend/src/components/ArchitectureDiagram.js` (the
  `ArchitectureDiagram` component, and the `Clarifications` component:
  `loadClarifications` step selection and `processClarifications`);
* `src/frontend/src/services/awsService.js` (`startSimulatedProgress`,
  `processRFP`);
* the `Results` component (cache read path through `localStorage`).

JavaScript values are modelled by the inductive type `Json`; `undefined`
is modelled by `Option.none` at property-access boundaries.  Machine
floats are restricted to integers (`Int`): every numeric literal the
engine manipulates in the verified statements is integral, and theorems
about arithmetic carry explicit numeric well-formedness hypotheses where
JS could produce `NaN`.
-/

namespace RfxEngine

/-- Model of a JavaScript/JSON value.  `undefined` is not a `Json`
constructor: absent values are represented as `Option.none` wherever the
source can observe the difference. -/
inductive Json where
  | null
  | bool (b : Bool)
  | num (n : Int)
  | str (s : String)
  | arr (elems : List Json)
  | obj (fields : List (String × Json))
deriving Repr

/-- JavaScript truthiness of a value (`Boolean(v)`). -/
def jsTruthy : Json → Bool
  | .null => false
  | .bool b => b
  | .num n => n != 0
  | .str s => !s.isEmpty
  | .arr _ => true
  | .obj _ => true

/-- Truthiness of a possibly-`undefined` value. -/
def jsTruthyOpt : Option Json → Bool
  | some v => jsTruthy v
  | none => false

/-- Property read `v[k]` on a value known to be neither `null` nor
`undefined`: yields the field of an object, and `undefined` (`none`) on
a missing key or a non-object receiver. -/
def getField : Json → String → Option Json
  | .obj fs, k => fs.lookup k
  | _, _ => none

/-- Optional-chaining property read `o?.k`: `undefined` when the
receiver is `null` or `undefined`. -/
def optChain (o : Option Json) (k : String) : Option Json :=
  match o with
  | none => none
  | some .null => none
  | some v => getField v k

/-- JavaScript `a || b` where `a` is a possibly-undefined property read
and `b` a present default. -/
def jsOrElse (a : Option Json) (b : Json) : Json :=
  match a with
  | some v => if jsTruthy v then v else b
  | none => b

/-- JavaScript `a || b` on two present values. -/
def jsOrVal (a b : Json) : Json :=
  if jsTruthy a then a else b

/-- JavaScript nullish coalescing `a ?? b` where `a` is a
possibly-undefined property read. -/
def jsNullish (a : Option Json) (b : Json) : Json :=
  match a with
  | some .null => b
  | some v => v
  | none => b

/-- JavaScript `Number(v)` restricted to the integer fragment of the
model: strings, arrays and objects coerce to `none` (standing for the
`NaN`/unmodelled outcomes); theorems that depend on arithmetic assume
numeric payloads. -/
def jsToNumber : Json → Option Int
  | .num n => some n
  | .null => some 0
  | .bool b => some (cond b 1 0)
  | _ => none

/-- ASCII decimal digit character for `n < 10`. -/
def decChar (n : Nat) : Char := Char.ofNat (48 + n)

/-- Decimal digit list of a natural number, fuel-driven so that it
reduces definitionally (`natDigitsAux f n` is correct whenever `n < f`). -/
def natDigitsAux : Nat → Nat → List Char
  | 0, _ => []
  | f + 1, n => if n < 10 then [decChar n] else natDigitsAux f (n / 10) ++ [decChar (n % 10)]

/-- Decimal digit list of a natural number. -/
def natDigits (n : Nat) : List Char := natDigitsAux (n + 1) n

/-- Decimal character rendering of an integer, as produced by JavaScript
number-to-string conversion on integral values. -/
def intChars (n : Int) : List Char :=
  if n < 0 then '-' :: natDigits (-n).toNat else natDigits n.toNat

mutual
/-- JavaScript string coercion `String(v)` (template-literal
interpolation): arrays join their coerced elements with commas, plain
objects render as `[object Object]`. -/
def jsToString : Json → String
  | .null => "null"
  | .bool true => "true"
  | .bool false => "false"
  | .num n => ⟨intChars n⟩
  | .str s => s
  | .arr xs => ⟨jsToStringElems xs⟩
  | .obj _ => "[object Object]"
termination_by structural j => j

/-- Element rendering of `Array.prototype.toString`: `null` elements
render empty, elements are comma-separated. -/
def jsToStringElems : List Json → List Char
  | [] => []
  | [x] => (match x with | .null => "" | v => jsToString v).data
  | x :: y :: t =>
      (match x with | .null => "" | v => jsToString v).data ++ ',' :: jsToStringElems (y :: t)
termination_by structural l => l
end

/-- Lowercasing as performed by `String.prototype.toLowerCase` on the
ASCII identifiers and paths the engine matches on. -/
def jsLower (s : String) : String := ⟨s.data.map Char.toLower⟩

/-- Helper for substring search: does the pattern occur contiguously in
the list? -/
def includesAux (pat : List Char) : List Char → Bool
  | [] => pat.isEmpty
  | c :: t => pat.isPrefixOf (c :: t) || includesAux pat t

/-- JavaScript `s.includes(pat)`. -/
def jsIncludes (s pat : String) : Bool := includesAux pat.data s.data

/-- JavaScript `s.endsWith(suffix)`. -/
def jsEndsWith (s suffix : String) : Bool := suffix.data.isSuffixOf s.data

/-! ## Step records and the step classifier

The pipeline result carries an ordered list of step records; the engine
classifies them into roles with `Array.prototype.find` heuristics.  The
spec's data model types `step`, `output` and `status` as optional
strings, which is how the components consume them. -/

/-- One entry of the pipeline's reported step list. -/
structure StepRecord where
  step : Option String
  output : Option String
  status : Option String
deriving Repr, DecidableEq

/-- JavaScript `(x || '')` on an optional string field. -/
def orEmpty (o : Option String) : String := o.getD ""

/-- Truthiness of the `output` field (`step.output && ...`). -/
def outTruthy (s : StepRecord) : Bool :=
  match s.output with
  | some t => !t.isEmpty
  | none => false

/-- SOW primary heuristic (ChatAgent.js, `Dashboard` effect): a `.docx`
or `.pdf` output whose name or output mentions SOW. -/
def sowPrimaryPred (s : StepRecord) : Bool :=
  let name := jsLower (orEmpty s.step)
  let out := jsLower (orEmpty s.output)
  let isDoc := jsEndsWith out ".docx" || jsEndsWith out ".pdf"
  isDoc && (jsIncludes name "sow" || jsIncludes name "statement of work" || jsIncludes out "sow")

/-- SOW fallback heuristic: any truthy output ending in `.docx` or `.pdf`. -/
def sowFallbackPred (s : StepRecord) : Bool :=
  let out := jsLower (orEmpty s.output)
  !out.isEmpty && (jsEndsWith out ".docx" || jsEndsWith out ".pdf")

/-- The `sowStep` selection: primary find, else fallback find. -/
def sowStep (steps : List StepRecord) : Option StepRecord :=
  match steps.find? sowPrimaryPred with
  | some s => some s
  | none => steps.find? sowFallbackPred

/-- Pricing primary heuristic (ChatAgent.js): a `.json` output that
mentions pricing in the name or pricing/price in the output path. -/
def pricingPrimaryPred (s : StepRecord) : Bool :=
  let name := jsLower (orEmpty s.step)
  let out := jsLower (orEmpty s.output)
  jsEndsWith out ".json" && (jsIncludes name "pricing" || jsIncludes out "pricing" || jsIncludes out "price")

/-- Pricing fallback heuristic: any truthy output ending in `.json`. -/
def pricingFallbackPred (s : StepRecord) : Bool :=
  let out := jsLower (orEmpty s.output)
  !out.isEmpty && jsEndsWith out ".json"

/-- The `pricingStep` selection: primary find, else fallback find. -/
def pricingStep (steps : List StepRecord) : Option StepRecord :=
  match steps.find? pricingPrimaryPred with
  | some s => some s
  | none => steps.find? pricingFallbackPred

/-- Architecture heuristic of the `Dashboard` component
(ChatAgent.js): a `.png` output whose name or output mentions
architecture or diagram. -/
def archDashPred (s : StepRecord) : Bool :=
  let name := jsLower (orEmpty s.step)
  let out := jsLower (orEmpty s.output)
  jsEndsWith out ".png" &&
    (jsIncludes name "architecture" || jsIncludes name "diagram" ||
     jsIncludes out "architecture" || jsIncludes out "diagram")

/-- The `architectureStep` selection of the `Dashboard` component: a
single find with no fallback. -/
def architectureStep (steps : List StepRecord) : Option StepRecord :=
  steps.find? archDashPred

/-- Architecture heuristic of the `ArchitectureDiagram` component: the
step literally named `Architecture Diagram` with a truthy `.json`
output (case-sensitive, no lowercasing in this component). -/
def archDiagramPred (s : StepRecord) : Bool :=
  (s.step == some "Architecture Diagram") && outTruthy s &&
    jsEndsWith (orEmpty s.output) ".json"

/-- The `architectureStep` selection of the `ArchitectureDiagram`
component. -/
def archDiagramStep (steps : List StepRecord) : Option StepRecord :=
  steps.find? archDiagramPred

/-- Clarification primary heuristic (`Clarifications.loadClarifications`):
a `.json` output mentioning clarification in name or output. -/
def clarPrimaryPred (s : StepRecord) : Bool :=
  let name := jsLower (orEmpty s.step)
  let out := jsLower (orEmpty s.output)
  jsEndsWith out ".json" && (jsIncludes name "clarification" || jsIncludes out "clarification")

/-- Clarification fallback heuristic: any output ending in `.json`. -/
def clarFallbackPred (s : StepRecord) : Bool :=
  jsEndsWith (jsLower (orEmpty s.output)) ".json"

/-- The `clarStep` selection: primary find, else fallback find. -/
def clarStep (steps : List StepRecord) : Option StepRecord :=
  match steps.find? clarPrimaryPred with
  | some s => some s
  | none => steps.find? clarFallbackPred

/-- The role-binding map produced by running every component's step
selection over the same step list (the spec's `classify`). -/
structure RoleBinding where
  pricing : Option StepRecord
  clarification : Option StepRecord
  sow : Option StepRecord
  architecture : Option StepRecord
deriving Repr, DecidableEq

/-- Classification of a step list into the four resolvable roles. -/
def classify (steps : List StepRecord) : RoleBinding :=
  ⟨pricingStep steps, clarStep steps, sowStep steps, architectureStep steps⟩

/-- Download-listing filter of the `Dashboard` component: steps with a
truthy output whose lowercased name contains neither `parsing` nor
`clarification`. -/
def downloadPred (s : StepRecord) : Bool :=
  let name := jsLower (orEmpty s.step)
  outTruthy s && !jsIncludes name "parsing" && !jsIncludes name "clarification"

/-- The download listing (`Download Results` card). -/
def downloadSteps (steps : List StepRecord) : List StepRecord :=
  steps.filter downloadPred

/-! ## JSON serialization (`JSON.stringify`)

Used by `processClarifications` to render non-string values, and by the
result cache write path.  Escaping covers the quote, backslash and the
common control characters; payload well-formedness (`wfJson`) restricts
strings to exactly the characters this escaping covers, which is where
the model coincides with `JSON.stringify`. -/

/-- Escape one character as `JSON.stringify` does (on the `wfChar`
fragment). -/
def escChar (c : Char) : List Char :=
  if c = '"' then ['\\', '"']
  else if c = '\\' then ['\\', '\\']
  else if c = '\n' then ['\\', 'n']
  else if c = '\r' then ['\\', 'r']
  else if c = '\t' then ['\\', 't']
  else [c]

/-- Encode a string body and the closing quote. -/
def encStr : List Char → List Char
  | [] => ['"']
  | c :: cs => escChar c ++ encStr cs

mutual
/-- Characters of `JSON.stringify v` (no whitespace, insertion-ordered
object fields, integral numbers in decimal). -/
def strData : Json → List Char
  | .null => "null".data
  | .bool true => "true".data
  | .bool false => "false".data
  | .num n => intChars n
  | .str s => '"' :: encStr s.data
  | .arr xs => '[' :: strElems xs
  | .obj fs => '\x7b' :: strMembers fs
termination_by structural j => j

/-- Array elements, comma-separated, with the closing bracket. -/
def strElems : List Json → List Char
  | [] => [']']
  | [x] => strData x ++ [']']
  | x :: y :: t => strData x ++ ',' :: strElems (y :: t)
termination_by structural l => l

/-- Object members, comma-separated, with the closing brace. -/
def strMembers : List (String × Json) → List Char
  | [] => ['\x7d']
  | [(k, v)] => ('"' :: encStr k.data) ++ ':' :: strData v ++ ['\x7d']
  | (k, v) :: m :: t => ('"' :: encStr k.data) ++ ':' :: strData v ++ ',' :: strMembers (m :: t)
termination_by structural l => l
end

/-- JavaScript `JSON.stringify` on the modelled value fragment. -/
def stringify (j : Json) : String := ⟨strData j⟩

/-! ## Pricing normalization (`Dashboard.renderPricingTable`) -/

/-- A rendered table cell: either a bare string or a value destined for
currency formatting (the `Intl.NumberFormat` output itself is a display
concern outside the model; the view records the value and the resolved
currency). -/
inductive Cell where
  | bare (text : String)
  | money (value : Json) (currency : Json)
deriving Repr

/-- Canonical view of the `pricing_check` structured variant. -/
structure StructuredPricing where
  low : Option Json
  high : Option Json
  currency : Json
  rows : List (String × Cell)
  feasible : Bool
  gapAbs : Option Json
  gapPct : Option Json
  recs : List Json
deriving Repr

/-- One row of the tabular variant, with the raw resolved fields. -/
structure LineRow where
  description : Json
  quantity : Json
  unitPrice : Json
  total : Json
deriving Repr

/-- The polymorphic pricing view model: structured estimate, tabular
line items with their grand total, or the raw-JSON fallback. -/
inductive PricingView where
  | structured (v : StructuredPricing)
  | tabular (rows : List LineRow) (grandTotal : Int) (currency : Json)
  | raw (payload : Json)
deriving Repr

/-- Fixed breakdown label table, in display order (source
`breakdownLabels`). -/
def breakdownLabels : List (String × String) :=
  [("infra_monthly", "Infra Monthly"),
   ("migration_per_app_total", "Migration (per app total)"),
   ("data_migration_total", "Data Migration Total"),
   ("pm_and_testing", "PM & Testing"),
   ("contingency", "Contingency"),
   ("duration_months", "Duration (months)")]

/-- Breakdown rows: recognized keys only, fixed order, defined fields
only; `duration_months` renders as a bare number, the rest as currency. -/
def breakdownRows (breakdown : Json) (currency : Json) : List (String × Cell) :=
  breakdownLabels.filterMap fun kv =>
    match getField breakdown kv.1 with
    | some v =>
        some (kv.2, if kv.1 == "duration_months" then Cell.bare (jsToString v) else Cell.money v currency)
    | none => none

/-- Item-array resolution for the tabular variant:
`Array.isArray(data) ? data : data?.items / data?.lineItems / data?.pricing`. -/
def pickItems (data : Json) : Option (List Json) :=
  match data with
  | .arr xs => some xs
  | _ =>
    match getField data "items" with
    | some (.arr xs) => some xs
    | _ =>
      match getField data "lineItems" with
      | some (.arr xs) => some xs
      | _ =>
        match getField data "pricing" with
        | some (.arr xs) => some xs
        | _ => none

/-- JavaScript `Number(a) * Number(b)` in the integer fragment; when a
factor does not coerce to a modelled number the product is the falsy
placeholder `null` (standing in for `NaN`, which is equally falsy and
outside the integer model). -/
def jsMul (a b : Json) : Json :=
  match jsToNumber a, jsToNumber b with
  | some x, some y => .num (x * y)
  | _, _ => .null

/-- Row construction of the tabular variant, resolving each field
through the source's fallback chains. -/
def mkRow (idx : Nat) (it : Json) : LineRow :=
  let description := jsOrElse (getField it "description")
    (jsOrElse (getField it "item")
      (jsOrElse (getField it "name") (.str ("Item " ++ toString (idx + 1)))))
  let quantity := jsNullish (getField it "quantity") (jsNullish (getField it "qty") (.num 1))
  let unitPrice := jsNullish (getField it "unitPrice")
    (jsNullish (getField it "pricePerUnit")
      (jsNullish (getField it "unit_rate") (jsNullish (getField it "rate") (.num 0))))
  let total := jsNullish (getField it "total")
    (jsNullish (getField it "extendedPrice")
      (jsNullish (getField it "amount") (jsMul quantity unitPrice)))
  ⟨description, quantity, unitPrice, total⟩

/-- All rows, with their indices (`items.map((it, idx) => ...)`). -/
def mkRows (its : List Json) : List LineRow :=
  its.enum.map fun p => mkRow p.1 p.2

/-- Contribution of one row to the grand total:
`Number(r.total || 0)`. -/
def rowTotalNum (r : LineRow) : Int :=
  (jsToNumber (jsOrVal r.total (.num 0))).getD 0

/-- The grand total reduction over the rows. -/
def grandTotalOf (rows : List LineRow) : Int :=
  rows.foldl (fun acc r => acc + rowTotalNum r) 0

/-- Truthiness of `data?.pricing_check`, selecting the structured
variant. -/
def hasPricingCheck (data : Json) : Bool :=
  jsTruthyOpt (getField data "pricing_check")

/-- Shape normalization of `Dashboard.renderPricingTable`: the
structured `pricing_check` variant, else the tabular array variant,
else the raw fallback. -/
def renderPricingTable (data : Json) : PricingView :=
  if hasPricingCheck data then
    let pc := jsOrElse (getField data "pricing_check") (.obj [])
    let ecr := jsOrElse (getField pc "estimated_cost_range") (.obj [])
    let breakdown := jsOrElse (getField pc "breakdown") (.obj [])
    let feas := jsOrElse (getField pc "feasibility") (.obj [])
    let recs :=
      match getField pc "funding_recommendations" with
      | some (.arr xs) => xs
      | _ => []
    let currency := jsOrElse (getField ecr "currency") (jsOrElse (getField data "currency") (.str "USD"))
    .structured
      ⟨getField ecr "low", getField ecr "high", currency,
       breakdownRows breakdown currency,
       jsLower (jsToString (jsOrElse (optChain (some feas) "feasibility") (.str ""))) == "feasible",
       optChain (some feas) "funding_gap_absolute",
       optChain (some feas) "funding_gap_pct",
       recs⟩
  else
    match pickItems data with
    | some its =>
        let currency := jsOrElse (getField data "currency")
          (jsOrElse (optChain (its.head?) "currency") (.str "USD"))
        .tabular (mkRows its) (grandTotalOf (mkRows its)) currency
    | none => .raw data

/-! ## Clarification normalization (`Clarifications.processClarifications`) -/

/-- Question text extracted from one element of a bare question array:
strings pass through, objects try `question`/`q`/`text`/`prompt`, else
the element is serialized. -/
def clarItemText (q : Json) : Json :=
  match q with
  | .str s => .str s
  | _ =>
    jsOrElse (getField q "question")
      (jsOrElse (getField q "q")
        (jsOrElse (getField q "text")
          (jsOrElse (getField q "prompt") (.str (stringify q)))))

/-- Question text extracted from one element of a `questions`/
`clarifications` wrapper array (only `question`/`text` are tried here). -/
def clarWrapText (q : Json) : Json :=
  match q with
  | .str s => .str s
  | _ => jsOrElse (getField q "question") (jsOrElse (getField q "text") (.str (stringify q)))

/-- Final fallback: one pseudo-question per top-level key, formatted
`key: value` (string values verbatim, other values serialized).
`Object.keys` of a non-object yields nothing here (the string-index
corner of JS is outside the paths the engine feeds this function). -/
def clarKeyFallback (json : Json) : List Json :=
  match json with
  | .obj fs =>
      fs.map fun kv =>
        .str (kv.1 ++ ": " ++ (match kv.2 with | .str s => s | v => stringify v))
  | _ => []

/-- Shape normalization of `processClarifications`: bare array, then
`questions` wrapper, then `clarifications` wrapper, then the per-key
fallback. -/
def processClarifications (json : Json) : List Json :=
  match json with
  | .arr qs => qs.map clarItemText
  | _ =>
    match getField json "questions" with
    | some (.arr qs) => qs.map clarWrapText
    | _ =>
      match getField json "clarifications" with
      | some (.arr qs) => qs.map clarWrapText
      | _ => clarKeyFallback json

/-! ## Architecture rendering (`ArchitectureDiagram.renderArchitectureInfo`)

Property access is modelled in `Except`: reading a property of
`undefined` or `null` raises a `TypeError`, which is precisely the
failure mode the graceful-degradation claim is about. -/

/-- Property read on a possibly-undefined receiver; raises on
`undefined` and `null` receivers as JavaScript does. -/
def jsGetProp (o : Option Json) (k : String) : Except String (Option Json) :=
  match o with
  | none => .error ("TypeError: Cannot read properties of undefined (reading " ++ k ++ ")")
  | some .null => .error ("TypeError: Cannot read properties of null (reading " ++ k ++ ")")
  | some v => .ok (getField v k)

/-- The view assembled by `renderArchitectureInfo` when it renders. -/
structure ArchView where
  title : Option Json
  customer : Option Json
  generatedAt : Option Json
  services : List Json
  explanation : Option Json
  mermaid : Option Json
  notes : List Json
deriving Repr

/-- Evaluation of `renderArchitectureInfo`: `none` models the `return
null` no-data outcome, `.error` a thrown `TypeError` during rendering.
The guard only checks `architectureData` and `architectureData.architecture_diagram`
for truthiness; every deeper access is unguarded in the source. -/
def renderArchitectureInfo (architectureData : Option Json) : Except String (Option ArchView) := do
  if !jsTruthyOpt architectureData then
    return none
  let ad ← jsGetProp architectureData "architecture_diagram"
  if !jsTruthyOpt ad then
    return none
  let proposal ← jsGetProp ad "proposal"
  let diagram ← jsGetProp ad "diagram"
  let pinfo ← jsGetProp proposal "project_info"
  let title ← jsGetProp pinfo "title"
  let customer ← jsGetProp pinfo "customer"
  let generatedAt ← jsGetProp pinfo "generated_at"
  let arch ← jsGetProp proposal "architecture"
  let servs ← jsGetProp arch "recommended_services"
  let services ←
    match servs with
    | some (.arr xs) => Except.ok xs
    | some _ => Except.error "TypeError: recommended_services.map is not a function"
    | none => Except.error "TypeError: Cannot read properties of undefined (reading map)"
  let explanation ← jsGetProp arch "explanation"
  let mermaid : Option Json :=
    match diagram with
    | some v => if jsTruthy v then getField v "mermaid_code" else none
    | none => none
  let notesVal ← jsGetProp proposal "implementation_notes"
  let notes : List Json :=
    match notesVal with
    | some (.arr xs) => xs
    | _ => []
  return some ⟨title, customer, generatedAt, services, explanation, mermaid, notes⟩

/-! ## Simulated progress (`awsService.startSimulatedProgress`)

The helper keeps an internal `current` value, emits `Math.min(current,
ceiling)` immediately, and on each interval tick advances by a step
that shrinks near the ceiling.  `minStep`/`maxStep` are fixed at their
defaults `1`/`5` (no call site overrides them). -/

/-- Integer `Math.ceil(d / 10)` for the nonnegative distances it is
applied to. -/
def jsCeilTenth (d : Int) : Int := Int.ofNat ((d.toNat + 9) / 10)

/-- The per-tick increment: distance-derived base, clamped to
`[minStep, maxStep]` twice as in the source. -/
def simDelta (minStep maxStep ceiling current : Int) : Int :=
  let distance := max 0 (ceiling - current)
  let stepBase := max minStep (min maxStep (jsCeilTenth distance))
  max minStep (min maxStep stepBase)

/-- One tick: `current = Math.min(current + delta, ceiling)`. -/
def simNext (ceiling current : Int) : Int :=
  min (current + simDelta 1 5 ceiling current) ceiling

/-- The internal `current` value after `n` ticks. -/
def simCurrent (start ceiling : Int) : Nat → Int
  | 0 => start
  | n + 1 => simNext ceiling (simCurrent start ceiling n)

/-- The `n`-th emitted progress value: the initial emission is clamped
to the ceiling, later emissions report `current` directly. -/
def simEmit (start ceiling : Int) : Nat → Int
  | 0 => min start ceiling
  | n + 1 => simCurrent start ceiling (n + 1)

/-! ## Pipeline invocation (`awsService.processRFP`)

The trace model records every `onProgress` event, whether the simulated
progress timer was stopped, and the overall outcome.  The upload phase
is parameterized by its reported percentages; the Lambda call by its
outcome and by how many simulated ticks fire while it is pending. -/

/-- One `onProgress` callback payload. -/
structure PEvent where
  step : String
  message : String
  progress : Int
deriving Repr, DecidableEq

/-- The simulated emissions observed over `ticks` interval firings
(the initial emission plus one per tick). -/
def simEmitsTo (start ceiling : Int) (ticks : Nat) : List Int :=
  (List.range (ticks + 1)).map (simEmit start ceiling)

/-- Trace semantics of `processRFP` for a successful upload: the list
of emitted progress events, whether `stopSim` ran, and the returned or
thrown outcome. -/
def processRFP (uploadTicks : List Int) (simTicks : Nat)
    (lambdaOutcome : Except String Json) :
    List PEvent × Bool × Except String Json :=
  let uploadEvents :=
    ⟨"upload", "Uploading file...", 0⟩ ::
      uploadTicks.map (fun p => PEvent.mk "upload" "Uploading to S3..." p) ++
      [⟨"upload", "Upload complete", 100⟩, ⟨"process", "Invoking Bedrock Agent...", 10⟩]
  let simEvents := (simEmitsTo 10 95 simTicks).map fun p => PEvent.mk "process" "Processing..." p
  match lambdaOutcome with
  | .ok r => (uploadEvents ++ simEvents ++ [⟨"process", "Processing complete!", 100⟩], true, .ok r)
  | .error e => (uploadEvents ++ simEvents, true, .error e)

/-! ## JSON parsing (`JSON.parse`) and the result cache

A fuel-driven recursive-descent parser over the character list; the
fuel bound is generous enough that it never cuts off a value produced
by `stringify` (proved below).  `JSON.parse` failures are modelled as
`none`, which is what the cache read path converts exceptions into. -/

/-- Decode one escape character after a backslash. -/
def decodeEsc (c : Char) : Option Char :=
  if c = '"' then some '"'
  else if c = '\\' then some '\\'
  else if c = 'n' then some '\n'
  else if c = 'r' then some '\r'
  else if c = 't' then some '\t'
  else none

/-- Parse a string body up to and including the closing quote. -/
def readStringBody : List Char → Option (List Char × List Char)
  | [] => none
  | '"' :: rest => some ([], rest)
  | '\\' :: [] => none
  | '\\' :: e :: rest2 =>
    match decodeEsc e with
    | some d => (readStringBody rest2).map fun p => (d :: p.1, p.2)
    | none => none
  | c :: rest => (readStringBody rest).map fun p => (c :: p.1, p.2)
termination_by structural l => l

/-- Numeric value of an ASCII digit character. -/
def digitVal (c : Char) : Nat := c.toNat - 48

/-- Greedily consume decimal digits, extending the accumulator. -/
def readDigits (acc : Nat) : List Char → Nat × List Char
  | [] => (acc, [])
  | c :: rest => if c.isDigit then readDigits (acc * 10 + digitVal c) rest else (acc, c :: rest)

mutual
/-- Parse one JSON value. -/
def readValue : Nat → List Char → Option (Json × List Char)
  | 0, _ => none
  | f + 1, input =>
    match input with
    | [] => none
    | c :: rest =>
      if c = 'n' then
        match rest with
        | 'u' :: 'l' :: 'l' :: r => some (.null, r)
        | _ => none
      else if c = 't' then
        match rest with
        | 'r' :: 'u' :: 'e' :: r => some (.bool true, r)
        | _ => none
      else if c = 'f' then
        match rest with
        | 'a' :: 'l' :: 's' :: 'e' :: r => some (.bool false, r)
        | _ => none
      else if c = '"' then
        (readStringBody rest).map fun p => (.str ⟨p.1⟩, p.2)
      else if c = '[' then
        match rest with
        | ']' :: r => some (.arr [], r)
        | _ => (readElements f rest).map fun p => (.arr p.1, p.2)
      else if c = '\x7b' then
        match rest with
        | '\x7d' :: r => some (.obj [], r)
        | _ => (readMembers f rest).map fun p => (.obj p.1, p.2)
      else if c = '-' then
        match rest with
        | [] => none
        | d :: r2 =>
          if d.isDigit then
            let p := readDigits (digitVal d) r2
            some (.num (-(p.1 : Int)), p.2)
          else none
      else if c.isDigit then
        let p := readDigits (digitVal c) rest
        some (.num (p.1 : Int), p.2)
      else none
termination_by structural fuel => fuel

/-- Parse a nonempty comma-separated element list and the closing
bracket. -/
def readElements : Nat → List Char → Option (List Json × List Char)
  | 0, _ => none
  | f + 1, input =>
    match readValue f input with
    | some (v, rest) =>
      match rest with
      | ',' :: rest2 => (readElements f rest2).map fun p => (v :: p.1, p.2)
      | ']' :: rest2 => some ([v], rest2)
      | _ => none
    | none => none
termination_by structural fuel => fuel

/-- Parse a nonempty comma-separated member list and the closing
brace. -/
def readMembers : Nat → List Char → Option (List (String × Json) × List Char)
  | 0, _ => none
  | f + 1, input =>
    match input with
    | '"' :: rest =>
      match readStringBody rest with
      | some (k, rest2) =>
        match rest2 with
        | ':' :: rest3 =>
          match readValue f rest3 with
          | some (v, rest4) =>
            match rest4 with
            | ',' :: rest5 => (readMembers f rest5).map fun p => ((⟨k⟩, v) :: p.1, p.2)
            | '\x7d' :: rest5 => some ([(⟨k⟩, v)], rest5)
            | _ => none
          | none => none
        | _ => none
      | none => none
    | _ => none
termination_by structural fuel => fuel
end

/-- JavaScript `JSON.parse` on the modelled grammar (whitespace-free
texts, which is all the cache ever stores); `none` models a thrown
`SyntaxError`. -/
def parseJson (s : String) : Option Json :=
  match readValue (2 * s.data.length + 3) s.data with
  | some (j, []) => some j
  | _ => none

/-- Cache write path (`localStorage.setItem('rfx_results',
JSON.stringify(processing))`). -/
def writeCache (j : Json) : String := stringify j

/-- Cache read path of the `Results`/`Clarifications` screens:
`cached ? JSON.parse(cached) : null` inside a `try`/`catch` that
returns `null`; a missing slot, an empty string, and an unparsable
value all yield `none`. -/
def readCache (stored : Option String) : Option Json :=
  match stored with
  | none => none
  | some c => if c.isEmpty then none else parseJson c

/-- Typed view of one raw step object (the spec's data model types the
three fields as optional strings; non-string field values are outside
the typed record model). -/
def jsonToStep (j : Json) : StepRecord :=
  let asStr : Option Json → Option String := fun o =>
    match o with
    | some (.str s) => some s
    | _ => none
  ⟨asStr (getField j "step"), asStr (getField j "output"), asStr (getField j "status")⟩

/-- The step list of a pipeline result:
`results.body?.steps || results.steps || []`, taken as a step-record
list when it is an array. -/
def stepsOfResults (results : Json) : List StepRecord :=
  match jsOrElse (optChain (getField results "body") "steps")
      (jsOrElse (getField results "steps") (.arr [])) with
  | .arr xs => xs.map jsonToStep
  | _ => []

/-- Classification induced by a cached or fresh pipeline-result value. -/
def classifyResults (results : Option Json) : RoleBinding :=
  classify (match results with | some r => stepsOfResults r | none => [])

/-- Payload well-formedness: every string consists of characters the
escaping of `strData` covers (printable or one of tab, LF, CR), which
is the fragment on which `stringify`/`parseJson` coincide with
`JSON.stringify`/`JSON.parse`. -/
def wfChar (c : Char) : Bool :=
  (32 ≤ c.toNat) || c = '\n' || c = '\r' || c = '\t'

mutual
/-- Well-formedness of a value (see `wfChar`). -/
def wfJson : Json → Bool
  | .null => true
  | .bool _ => true
  | .num _ => true
  | .str s => s.data.all wfChar
  | .arr xs => wfElems xs
  | .obj fs => wfMembers fs
termination_by structural j => j

/-- Well-formedness of an element list. -/
def wfElems : List Json → Bool
  | [] => true
  | x :: t => wfJson x && wfElems t
termination_by structural l => l

/-- Well-formedness of a member list. -/
def wfMembers : List (String × Json) → Bool
  | [] => true
  | (k, v) :: t => k.data.all wfChar && wfJson v && wfMembers t
termination_by structural l => l
end

end RfxEngine

namespace RfxEngine

/-! ## Auxiliary definitions used by the verification statements -/

/-- Architecture predicate as the specification words it (modelled from
the spec, for comparison against the code): output ends in `.png` or
`.json` and the name or output mentions architecture or diagram. -/
def specArchPred (s : StepRecord) : Bool :=
  let name := jsLower (orEmpty s.step)
  let out := jsLower (orEmpty s.output)
  (jsEndsWith out ".png" || jsEndsWith out ".json") &&
    (jsIncludes name "architecture" || jsIncludes name "diagram" ||
     jsIncludes out "architecture" || jsIncludes out "diagram")

/-- First step matching the spec-worded architecture predicate. -/
def specArchStep (steps : List StepRecord) : Option StepRecord :=
  steps.find? specArchPred

/-- A field is numeric-or-absent when it is missing, `null`, or an
integral number (the fragment on which JS arithmetic stays in the
integer model). -/
def numish : Option Json → Bool
  | none => true
  | some .null => true
  | some (.num _) => true
  | some _ => false

/-- Numeric well-formedness of one line item: every field consulted by
the quantity, unit-price and total fallback chains is numeric or
absent. -/
def itemWF (it : Json) : Bool :=
  numish (getField it "quantity") && numish (getField it "qty") &&
  numish (getField it "unitPrice") && numish (getField it "pricePerUnit") &&
  numish (getField it "unit_rate") && numish (getField it "rate") &&
  numish (getField it "total") && numish (getField it "extendedPrice") &&
  numish (getField it "amount")

/-- Is a possibly-undefined value an array (`Array.isArray(x)`) ? -/
def isArrOpt : Option Json → Bool
  | some (.arr _) => true
  | _ => false

mutual
/-- Structural size of a value, used as a fuel lower bound. -/
def jsize : Json → Nat
  | .null => 1
  | .bool b => 1
  | .num n => 1
  | .str s => 1
  | .arr xs => jsizeL xs + 1
  | .obj fs => jsizeM fs + 1
termination_by structural j => j

/-- Structural size of an element list. -/
def jsizeL : List Json → Nat
  | [] => 1
  | x :: t => jsize x + jsizeL t + 1
termination_by structural l => l

/-- Structural size of a member list. -/
def jsizeM : List (String × Json) → Nat
  | [] => 1
  | (k, v) :: t => jsize v + jsizeM t + 1
termination_by structural l => l
end

/-- Is the head of the remaining input a non-digit (or is the input
empty)? -/
def headNotDigit : List Char → Bool
  | [] => true
  | c :: _ => !c.isDigit

/-! ## Generic list facts used by the classification theorems -/

/-- Decomposition of a successful `find?`: the hit is the first
element satisfying the predicate. -/
theorem find?_decomp {α : Type} (p : α → Bool) (l : List α) (a : α)
    (h : l.find? p = some a) :
    ∃ pre post, l = pre ++ a :: post ∧ (∀ x ∈ pre, p x = false) ∧ p a = true := by
  induction l with
  | nil => simp [List.find?] at h
  | cons b t ih =>
    by_cases hb : p b
    · rw [List.find?_cons_of_pos _ hb] at h
      obtain rfl : b = a := by injection h
      exact ⟨[], t, rfl, by simp, hb⟩
    · rw [List.find?_cons_of_neg _ (by simpa using hb)] at h
      obtain ⟨pre, post, rfl, hpre, hpa⟩ := ih h
      refine ⟨b :: pre, post, rfl, ?_, hpa⟩
      intro x hx
      rcases List.mem_cons.mp hx with rfl | hx
      · simpa using hb
      · exact hpre x hx

/-- Two incomparable strings cannot both be suffixes of the same
string. -/
theorem jsEndsWith_excl (s a b : String)
    (hab : a.data.isSuffixOf b.data = false) (hba : b.data.isSuffixOf a.data = false)
    (ha : jsEndsWith s a = true) (hb : jsEndsWith s b = true) : False := by
  rw [jsEndsWith, List.isSuffixOf_iff_suffix] at ha hb
  rcases List.suffix_or_suffix_of_suffix ha hb with h | h
  · rw [← List.isSuffixOf_iff_suffix, hab] at h
    exact Bool.false_ne_true h
  · rw [← List.isSuffixOf_iff_suffix, hba] at h
    exact Bool.false_ne_true h

/-- A pricing binding always carries a `.json` output. -/
theorem pricingStep_json (steps : List StepRecord) (s : StepRecord)
    (h : pricingStep steps = some s) :
    jsEndsWith (jsLower (orEmpty s.output)) ".json" = true := by
  unfold pricingStep at h
  cases hf : steps.find? pricingPrimaryPred with
  | some t =>
    rw [hf] at h
    obtain rfl : t = s := by injection h
    have hp := List.find?_some hf
    unfold pricingPrimaryPred at hp
    simp only [Bool.and_eq_true] at hp
    exact hp.1
  | none =>
    rw [hf] at h
    have hp := List.find?_some h
    unfold pricingFallbackPred at hp
    simp only [Bool.and_eq_true] at hp
    exact hp.2

/-- A SOW binding always carries a `.docx` or `.pdf` output. -/
theorem sowStep_doc (steps : List StepRecord) (s : StepRecord)
    (h : sowStep steps = some s) :
    jsEndsWith (jsLower (orEmpty s.output)) ".docx" = true ∨
      jsEndsWith (jsLower (orEmpty s.output)) ".pdf" = true := by
  unfold sowStep at h
  cases hf : steps.find? sowPrimaryPred with
  | some t =>
    rw [hf] at h
    obtain rfl : t = s := by injection h
    have hp := List.find?_some hf
    unfold sowPrimaryPred at hp
    simp only [Bool.and_eq_true, Bool.or_eq_true] at hp
    exact hp.1
  | none =>
    rw [hf] at h
    have hp := List.find?_some h
    unfold sowFallbackPred at hp
    simp only [Bool.and_eq_true, Bool.or_eq_true] at hp
    exact hp.2

/-- A Dashboard architecture binding always carries a `.png` output. -/
theorem archStep_png (steps : List StepRecord) (s : StepRecord)
    (h : architectureStep steps = some s) :
    jsEndsWith (jsLower (orEmpty s.output)) ".png" = true := by
  have hp := List.find?_some h
  unfold archDashPred at hp
  simp only [Bool.and_eq_true] at hp
  exact hp.1

/-- C1 counterexample: a single generically-named `.json` step is
bound by the pricing fallback and again by the clarification fallback,
so one step record is bound to two roles. -/
theorem classify_double_binding_cex :
    (classify [⟨some "Step One", some "results/data.json", some "success"⟩]).pricing =
        some ⟨some "Step One", some "results/data.json", some "success"⟩ ∧
      (classify [⟨some "Step One", some "results/data.json", some "success"⟩]).clarification =
        some ⟨some "Step One", some "results/data.json", some "success"⟩ := ⟨rfl, rfl⟩

/-- C1 amended: the pricing, SOW, and Dashboard architecture roles can
never share a bound step (their extension predicates are mutually
exclusive), although the pricing and clarification fallbacks can bind
the same step. -/
theorem classify_extension_disjointness (steps : List StepRecord) (s1 s2 : StepRecord) :
    (pricingStep steps = some s1 → sowStep steps = some s2 → s1 ≠ s2) ∧
      (pricingStep steps = some s1 → architectureStep steps = some s2 → s1 ≠ s2) ∧
      (sowStep steps = some s1 → architectureStep steps = some s2 → s1 ≠ s2) := by
  refine ⟨?_, ?_, ?_⟩
  · intro hp hs heq
    subst heq
    have h1 := pricingStep_json steps s1 hp
    rcases sowStep_doc steps s1 hs with h2 | h2
    · exact jsEndsWith_excl _ ".json" ".docx" (by decide) (by decide) h1 h2
    · exact jsEndsWith_excl _ ".json" ".pdf" (by decide) (by decide) h1 h2
  · intro hp ha heq
    subst heq
    have h1 := pricingStep_json steps s1 hp
    have h2 := archStep_png steps s1 ha
    exact jsEndsWith_excl _ ".json" ".png" (by decide) (by decide) h1 h2
  · intro hs ha heq
    subst heq
    have h2 := archStep_png steps s1 ha
    rcases sowStep_doc steps s1 hs with h1 | h1
    · exact jsEndsWith_excl _ ".docx" ".png" (by decide) (by decide) h1 h2
    · exact jsEndsWith_excl _ ".pdf" ".png" (by decide) (by decide) h1 h2

/-- C1 witness: on a three-step list the pricing, SOW and architecture
bindings resolve to three pairwise distinct steps. -/
theorem classify_extension_disjointness_wit :
    pricingStep
        [⟨some "Pricing Estimate", some "u/pricing.json", some "success"⟩,
         ⟨some "SOW Draft", some "u/sow.docx", some "success"⟩,
         ⟨some "Architecture Diagram", some "u/diagram.png", some "success"⟩] =
      some ⟨some "Pricing Estimate", some "u/pricing.json", some "success"⟩ ∧
    (⟨some "Pricing Estimate", some "u/pricing.json", some "success"⟩ : StepRecord) ≠
      ⟨some "SOW Draft", some "u/sow.docx", some "success"⟩ := by
  constructor
  · rfl
  · exact (classify_extension_disjointness
      [⟨some "Pricing Estimate", some "u/pricing.json", some "success"⟩,
       ⟨some "SOW Draft", some "u/sow.docx", some "success"⟩,
       ⟨some "Architecture Diagram", some "u/diagram.png", some "success"⟩]
      ⟨some "Pricing Estimate", some "u/pricing.json", some "success"⟩
      ⟨some "SOW Draft", some "u/sow.docx", some "success"⟩).1 rfl rfl

end RfxEngine

namespace RfxEngine

/-- C8 counterexample: a `.json` step mentioning architecture matches
the spec's predicate, yet both components leave the architecture role
unresolved (the Dashboard needs `.png`, the ArchitectureDiagram
component needs the exact name `Architecture Diagram`). -/
theorem architecture_binding_cex :
    specArchStep [⟨some "architecture", some "arch.json", some "success"⟩] =
        some ⟨some "architecture", some "arch.json", some "success"⟩ ∧
      architectureStep [⟨some "architecture", some "arch.json", some "success"⟩] = none ∧
      archDiagramStep [⟨some "architecture", some "arch.json", some "success"⟩] = none :=
  ⟨rfl, rfl, rfl⟩

/-- C8 amended: each component binds the architecture role to the
first step satisfying its own predicate (`.png` plus an
architecture/diagram mention for the Dashboard; the exact name
`Architecture Diagram` plus a `.json` output for the
ArchitectureDiagram component) and leaves it unresolved when no step
matches. -/
theorem architecture_binding (steps : List StepRecord) :
    (architectureStep steps = none ↔ ∀ s ∈ steps, archDashPred s = false) ∧
      (∀ s, architectureStep steps = some s →
        s ∈ steps ∧ archDashPred s = true ∧
          ∃ pre post, steps = pre ++ s :: post ∧ ∀ x ∈ pre, archDashPred x = false) ∧
      (archDiagramStep steps = none ↔ ∀ s ∈ steps, archDiagramPred s = false) ∧
      (∀ s, archDiagramStep steps = some s →
        s ∈ steps ∧ archDiagramPred s = true ∧
          ∃ pre post, steps = pre ++ s :: post ∧ ∀ x ∈ pre, archDiagramPred x = false) := by
  refine ⟨?_, ?_, ?_, ?_⟩
  · rw [architectureStep, List.find?_eq_none]
    constructor
    · intro h s hs
      simpa using h s hs
    · intro h s hs
      simp [h s hs]
  · intro s h
    obtain ⟨pre, post, hsplit, hpre, hp⟩ := find?_decomp _ _ _ h
    exact ⟨by rw [hsplit]; simp, hp, pre, post, hsplit, hpre⟩
  · rw [archDiagramStep, List.find?_eq_none]
    constructor
    · intro h s hs
      simpa using h s hs
    · intro h s hs
      simp [h s hs]
  · intro s h
    obtain ⟨pre, post, hsplit, hpre, hp⟩ := find?_decomp _ _ _ h
    exact ⟨by rw [hsplit]; simp, hp, pre, post, hsplit, hpre⟩

/-- C8 witness: a concrete two-step list where the Dashboard binding
resolves to the `.png` step and satisfies its predicate. -/
theorem architecture_binding_wit :
    architectureStep
        [⟨some "RFx Parsing", some "u/parsed.json", some "success"⟩,
         ⟨some "Diagram Render", some "u/diagram.png", some "success"⟩] =
      some ⟨some "Diagram Render", some "u/diagram.png", some "success"⟩ ∧
    archDashPred ⟨some "Diagram Render", some "u/diagram.png", some "success"⟩ = true := by
  refine ⟨rfl, ?_⟩
  exact ((architecture_binding
    [⟨some "RFx Parsing", some "u/parsed.json", some "success"⟩,
     ⟨some "Diagram Render", some "u/diagram.png", some "success"⟩]).2.1
    ⟨some "Diagram Render", some "u/diagram.png", some "success"⟩ rfl).2.1

/-- C10: membership in the download listing is exactly truthy output
plus a lowercased name mentioning neither parsing nor clarification. -/
theorem downloadSteps_mem (steps : List StepRecord) (s : StepRecord) :
    s ∈ downloadSteps steps ↔
      s ∈ steps ∧ outTruthy s = true ∧
        jsIncludes (jsLower (orEmpty s.step)) "parsing" = false ∧
        jsIncludes (jsLower (orEmpty s.step)) "clarification" = false := by
  simp [downloadSteps, List.mem_filter, downloadPred, Bool.and_eq_true, Bool.not_eq_true',
    and_assoc]

end RfxEngine

namespace RfxEngine

/-! ## Simulated progress facts -/

/-- The per-tick increment is positive (the minimum step is 1). -/
theorem simDelta_pos (ceiling current : Int) : 0 < simDelta 1 5 ceiling current := by
  unfold simDelta
  exact lt_of_lt_of_le Int.one_pos (le_max_left _ _)

/-- Every emitted value is at most the ceiling. -/
theorem simEmit_le_ceiling (start ceiling : Int) (n : Nat) :
    simEmit start ceiling n ≤ ceiling := by
  cases n with
  | zero => exact min_le_right _ _
  | succ m => exact min_le_right _ _

/-- The emitted sequence is monotonically non-decreasing. -/
theorem simEmit_mono (start ceiling : Int) (n : Nat) :
    simEmit start ceiling n ≤ simEmit start ceiling (n + 1) := by
  cases n with
  | zero =>
    have hd := simDelta_pos ceiling start
    show min start ceiling ≤ min (start + simDelta 1 5 ceiling start) ceiling
    refine le_min ?_ (min_le_right _ _)
    have h1 : min start ceiling ≤ start := min_le_left _ _
    omega
  | succ m =>
    have hd := simDelta_pos ceiling (simCurrent start ceiling (m + 1))
    show simCurrent start ceiling (m + 1) ≤
      min (simCurrent start ceiling (m + 1) + simDelta 1 5 ceiling (simCurrent start ceiling (m + 1)))
        ceiling
    refine le_min (by omega) ?_
    exact min_le_right _ _

/-- The emissions observed over a run are never empty and end with the
latest value. -/
theorem simEmitsTo_getLast (start ceiling : Int) (t : Nat) :
    (simEmitsTo start ceiling t).getLast? = some (simEmit start ceiling t) := by
  unfold simEmitsTo
  rw [List.range_succ, List.map_append]
  simp

/-- Membership in the emission list comes from some tick index. -/
theorem simEmitsTo_mem (start ceiling p : Int) (t : Nat)
    (h : p ∈ simEmitsTo start ceiling t) : ∃ k, k < t + 1 ∧ p = simEmit start ceiling k := by
  unfold simEmitsTo at h
  obtain ⟨k, hk, rfl⟩ := List.mem_map.mp h
  exact ⟨k, List.mem_range.mp hk, rfl⟩

end RfxEngine

namespace RfxEngine

/-- C2 counterexample: with ceiling 200 the twentieth emission is 105,
exceeding 100, so the emitted value is not bounded by 100 for every
start and ceiling. -/
theorem startSimulatedProgress_exceeds_100_cex :
    simEmit 5 200 20 = 105 ∧ (100 : Int) < simEmit 5 200 20 := by
  constructor <;> decide

/-- C2 amended: the emitted progress sequence is monotonically
non-decreasing and never exceeds the ceiling; it is bounded by 100
exactly when the ceiling is (as at both call sites, where the ceiling
is 95). -/
theorem startSimulatedProgress_bounds (start ceiling : Int) (n : Nat) :
    simEmit start ceiling n ≤ simEmit start ceiling (n + 1) ∧
      simEmit start ceiling n ≤ ceiling ∧
      (ceiling ≤ 100 → simEmit start ceiling n ≤ 100) := by
  refine ⟨simEmit_mono start ceiling n, simEmit_le_ceiling start ceiling n, ?_⟩
  intro h
  exact le_trans (simEmit_le_ceiling start ceiling n) h

/-- C2 witness: the bounds at the call-site parameters. -/
theorem startSimulatedProgress_bounds_wit :
    simEmit 10 95 3 ≤ simEmit 10 95 4 ∧ simEmit 10 95 3 ≤ 95 ∧ simEmit 10 95 3 ≤ 100 := by
  obtain ⟨h1, h2, h3⟩ := startSimulatedProgress_bounds 10 95 3
  exact ⟨h1, h2, h3 (by decide)⟩

/-! ## Pipeline trace facts -/

/-- The mapped emission list ends with the latest emission. -/
theorem simEvents_getLast (f : Int → PEvent) (s c : Int) (t : Nat) :
    ((simEmitsTo s c t).map f).getLast? = some (f (simEmit s c t)) := by
  simp [simEmitsTo, List.range_succ]

/-- The mapped emission list is never empty. -/
theorem simEvents_ne_nil (f : Int → PEvent) (s c : Int) (t : Nat) :
    (simEmitsTo s c t).map f ≠ [] := by
  simp [simEmitsTo, List.range_succ]

/-- C4 counterexample: on a failed invocation the trace contains no
100-percent process event at all, and the run ends on a simulated
value (20 here), contradicting a progress snap to 100 before the
failure is shown. -/
theorem processRFP_failure_no_snap_cex :
    ((processRFP [] 2 (.error "boom")).1.getLast?).map PEvent.progress = some 20 ∧
      (processRFP [] 2 (.error "boom")).2.2 = .error "boom" ∧
      ((processRFP [] 2 (.error "boom")).1.all
        fun ev => !(ev.step == "process" && ev.progress == 100)) = true := by
  refine ⟨?_, rfl, ?_⟩ <;> decide

/-- C4 amended: on both outcomes the simulation timer is stopped and
the outcome is propagated whole; on success the final emitted event is
the 100-percent completion event, while on failure the run ends on the
last simulated emission and every process-phase event stays at most at
the simulation ceiling 95, with no 100-percent process event. -/
theorem processRFP_progress (uploadTicks : List Int) (simTicks : Nat) :
    (∀ r : Json, (processRFP uploadTicks simTicks (.ok r)).2.1 = true ∧
      (processRFP uploadTicks simTicks (.ok r)).2.2 = .ok r ∧
      (processRFP uploadTicks simTicks (.ok r)).1.getLast? =
        some ⟨"process", "Processing complete!", 100⟩) ∧
    (∀ e : String, (processRFP uploadTicks simTicks (.error e)).2.1 = true ∧
      (processRFP uploadTicks simTicks (.error e)).2.2 = .error e ∧
      (processRFP uploadTicks simTicks (.error e)).1.getLast? =
        some ⟨"process", "Processing...", simEmit 10 95 simTicks⟩ ∧
      ∀ ev ∈ (processRFP uploadTicks simTicks (.error e)).1,
        ev.step = "process" → ev.progress ≤ 95) := by
  have htrace : ∀ e : String, (processRFP uploadTicks simTicks (.error e)).1 =
      (⟨"upload", "Uploading file...", 0⟩ ::
        (uploadTicks.map fun p => PEvent.mk "upload" "Uploading to S3..." p) ++
        [⟨"upload", "Upload complete", 100⟩, ⟨"process", "Invoking Bedrock Agent...", 10⟩]) ++
      ((simEmitsTo 10 95 simTicks).map fun p => PEvent.mk "process" "Processing..." p) :=
    fun _ => rfl
  constructor
  · intro r
    refine ⟨rfl, rfl, ?_⟩
    show (_ ++ _ ++ [(⟨"process", "Processing complete!", 100⟩ : PEvent)]).getLast? = _
    rw [List.getLast?_concat]
  · intro e
    refine ⟨rfl, rfl, ?_, ?_⟩
    · rw [htrace e, List.getLast?_append_of_ne_nil _ (simEvents_ne_nil _ 10 95 simTicks),
        simEvents_getLast]
    · intro ev hev hstep
      rw [htrace e] at hev
      rcases List.mem_append.mp hev with h | h
      · rcases List.mem_cons.mp h with rfl | h
        · simp at hstep
        · rcases List.mem_append.mp h with h | h
          · obtain ⟨p, _, rfl⟩ := List.mem_map.mp h
            simp at hstep
          · rcases List.mem_cons.mp h with rfl | h
            · simp at hstep
            · rcases List.mem_cons.mp h with rfl | h
              · show (10 : Int) ≤ 95
                decide
              · simp at h
      · obtain ⟨p, hp, rfl⟩ := List.mem_map.mp h
        obtain ⟨k, _, rfl⟩ := simEmitsTo_mem 10 95 p simTicks hp
        exact simEmit_le_ceiling 10 95 k

/-- C4 witness: the failure-path facts at a concrete run, including
one concrete process event bounded by 95. -/
theorem processRFP_progress_wit :
    (processRFP [] 1 (.error "x")).2.1 = true ∧
      (processRFP [] 1 (.error "x")).1.getLast? =
        some ⟨"process", "Processing...", simEmit 10 95 1⟩ ∧
      (⟨"process", "Invoking Bedrock Agent...", 10⟩ : PEvent).progress ≤ 95 ∧
      (processRFP [] 1 (.ok .null)).1.getLast? =
        some ⟨"process", "Processing complete!", 100⟩ := by
  obtain ⟨hok, herr⟩ := processRFP_progress [] 1
  obtain ⟨h1, _, h3, h4⟩ := herr "x"
  exact ⟨h1, h3,
    h4 ⟨"process", "Invoking Bedrock Agent...", 10⟩ (by decide) rfl,
    (hok Json.null).2.2⟩

end RfxEngine

namespace RfxEngine

/-! ## Pricing normalization facts -/

/-- C5: the structured pricing example from the spec normalizes to the
structured variant with low 100, high 200, a feasible verdict, and the
duration rendered as the bare string 3 rather than as currency. -/
theorem renderPricingTable_structured_c5 :
    renderPricingTable
        (.obj [("pricing_check", .obj
          [("estimated_cost_range", .obj
             [("low", .num 100), ("high", .num 200), ("currency", .str "USD")]),
           ("breakdown", .obj [("duration_months", .num 3)]),
           ("feasibility", .obj [("feasibility", .str "Feasible")])])]) =
      .structured
        ⟨some (.num 100), some (.num 200), .str "USD",
         [("Duration (months)", Cell.bare "3")], true, none, none, []⟩ := rfl

/-- Nullish chaining preserves numberhood. -/
theorem jsNullish_num (o : Option Json) (d : Json) (ho : numish o = true)
    (hd : ∃ n, d = Json.num n) : ∃ n, jsNullish o d = Json.num n := by
  cases o with
  | none => exact hd
  | some v => cases v <;> simp_all [numish, jsNullish]

/-- Under `itemWF` the resolved row total is an integral number. -/
theorem mkRow_total_num (idx : Nat) (it : Json) (h : itemWF it = true) :
    ∃ n, (mkRow idx it).total = Json.num n := by
  unfold itemWF at h
  simp only [Bool.and_eq_true] at h
  obtain ⟨⟨⟨⟨⟨⟨⟨⟨hq, hqty⟩, hup⟩, hppu⟩, hur⟩, hr⟩, ht⟩, hep⟩, ha⟩ := h
  have hqn : ∃ n, jsNullish (getField it "quantity")
      (jsNullish (getField it "qty") (.num 1)) = Json.num n :=
    jsNullish_num _ _ hq (jsNullish_num _ _ hqty ⟨1, rfl⟩)
  have hun : ∃ n, jsNullish (getField it "unitPrice")
      (jsNullish (getField it "pricePerUnit")
        (jsNullish (getField it "unit_rate")
          (jsNullish (getField it "rate") (.num 0)))) = Json.num n :=
    jsNullish_num _ _ hup (jsNullish_num _ _ hppu (jsNullish_num _ _ hur
      (jsNullish_num _ _ hr ⟨0, rfl⟩)))
  obtain ⟨qn, hqe⟩ := hqn
  obtain ⟨un, hue⟩ := hun
  show ∃ n, jsNullish (getField it "total")
      (jsNullish (getField it "extendedPrice")
        (jsNullish (getField it "amount") (jsMul _ _))) = Json.num n
  refine jsNullish_num _ _ ht (jsNullish_num _ _ hep (jsNullish_num _ _ ha ?_))
  rw [hqe, hue]
  exact ⟨qn * un, rfl⟩

/-- The grand-total contribution of a numeric row is its total. -/
theorem rowTotalNum_num (r : LineRow) (n : Int) (h : r.total = Json.num n) :
    rowTotalNum r = n := by
  by_cases h0 : n = 0 <;> simp [rowTotalNum, h, jsOrVal, jsTruthy, jsToNumber, h0]

/-- The fold computing the grand total is the sum of the per-row
contributions. -/
theorem grandTotalOf_eq_sum (rows : List LineRow) :
    grandTotalOf rows = (rows.map rowTotalNum).sum := by
  suffices h : ∀ a, rows.foldl (fun acc r => acc + rowTotalNum r) a = a + (rows.map rowTotalNum).sum by
    simpa [grandTotalOf] using h 0
  induction rows with
  | nil => simp
  | cons r t ih => intro a; simp [List.foldl_cons, ih]; ring

/-- Rows come from enumerated items. -/
theorem mkRows_mem (its : List Json) (r : LineRow) (h : r ∈ mkRows its) :
    ∃ idx it, it ∈ its ∧ r = mkRow idx it := by
  obtain ⟨p, hp, rfl⟩ := List.mem_map.mp h
  rw [List.enum_eq_zip_range] at hp
  exact ⟨p.1, p.2, (List.of_mem_zip hp).2, rfl⟩

/-- C6: for a payload without `pricing_check` that resolves to an item
array of numeric items, normalization takes the tabular variant and
its grand total is the sum of the (numeric) row totals. -/
theorem renderPricingTable_tabular (data : Json) (its : List Json)
    (hpc : hasPricingCheck data = false) (hits : pickItems data = some its)
    (hwf : its.all itemWF = true) :
    ∃ (currency : Json) (ts : List Int),
      renderPricingTable data = .tabular (mkRows its) ts.sum currency ∧
        (mkRows its).map LineRow.total = ts.map Json.num ∧
        (mkRows its).length = its.length := by
  refine ⟨jsOrElse (getField data "currency")
      (jsOrElse (optChain its.head? "currency") (.str "USD")),
    (mkRows its).map rowTotalNum, ?_, ?_, by simp [mkRows]⟩
  · rw [renderPricingTable, hpc]
    simp only [Bool.false_eq_true, if_false, hits, ← grandTotalOf_eq_sum]
  · rw [List.map_map]
    refine List.map_congr_left ?_
    intro r hr
    obtain ⟨idx, it, hmem, rfl⟩ := mkRows_mem its r hr
    obtain ⟨n, hn⟩ := mkRow_total_num idx it (List.all_eq_true.mp hwf it hmem)
    rw [hn]
    show Json.num n = Json.num (rowTotalNum (mkRow idx it))
    rw [rowTotalNum_num _ n hn]

/-- C6 witness: the single-item example from the spec yields one row
with total 20 and grand total 20. -/
theorem renderPricingTable_tabular_wit :
    renderPricingTable (.arr [.obj [("description", .str "A"), ("quantity", .num 2),
        ("unitPrice", .num 10)]]) =
      .tabular [⟨.str "A", .num 2, .num 10, .num 20⟩] 20 (.str "USD") ∧
    ∃ (currency : Json) (ts : List Int),
      renderPricingTable (.arr [.obj [("description", .str "A"), ("quantity", .num 2),
          ("unitPrice", .num 10)]]) =
        .tabular (mkRows [.obj [("description", .str "A"), ("quantity", .num 2),
          ("unitPrice", .num 10)]]) ts.sum currency ∧
        (mkRows [.obj [("description", .str "A"), ("quantity", .num 2),
          ("unitPrice", .num 10)]]).map LineRow.total = ts.map Json.num ∧
        (mkRows [.obj [("description", .str "A"), ("quantity", .num 2),
          ("unitPrice", .num 10)]]).length = 1 :=
  ⟨rfl, renderPricingTable_tabular
    (.arr [.obj [("description", .str "A"), ("quantity", .num 2), ("unitPrice", .num 10)]])
    [.obj [("description", .str "A"), ("quantity", .num 2), ("unitPrice", .num 10)]]
    rfl rfl rfl⟩

end RfxEngine

namespace RfxEngine

/-! ## Clarification normalization facts -/

/-- C7: an object payload with no `questions` or `clarifications`
array field synthesizes exactly one pseudo-question per top-level key,
formatted `key: value`. -/
theorem processClarifications_key_fallback (fields : List (String × Json))
    (hq : isArrOpt (getField (.obj fields) "questions") = false)
    (hc : isArrOpt (getField (.obj fields) "clarifications") = false) :
    processClarifications (.obj fields) =
      fields.map (fun kv =>
        .str (kv.1 ++ ": " ++ (match kv.2 with | .str s => s | v => stringify v))) ∧
      (processClarifications (.obj fields)).length = fields.length := by
  have h1 : processClarifications (.obj fields) = clarKeyFallback (.obj fields) := by
    show (match getField (Json.obj fields) "questions" with
      | some (.arr qs) => qs.map clarWrapText
      | _ =>
        match getField (Json.obj fields) "clarifications" with
        | some (.arr qs) => qs.map clarWrapText
        | _ => clarKeyFallback (Json.obj fields)) = clarKeyFallback (Json.obj fields)
    rcases hgq : getField (Json.obj fields) "questions" with _ | v
    · rcases hgc : getField (Json.obj fields) "clarifications" with _ | w
      · rfl
      · rw [hgc] at hc
        cases w <;> simp_all [isArrOpt]
    · rw [hgq] at hq
      cases v <;> first
        | (rcases hgc : getField (Json.obj fields) "clarifications" with _ | w
           · rfl
           · rw [hgc] at hc
             cases w <;> simp_all [isArrOpt])
        | simp_all [isArrOpt]
  refine ⟨h1.trans rfl, ?_⟩
  rw [h1]
  show (fields.map _).length = fields.length
  simp

/-- C7 witness: the single-key example from the spec yields exactly
the pseudo-question `foo: bar`. -/
theorem processClarifications_key_fallback_wit :
    processClarifications (.obj [("foo", .str "bar")]) = [.str "foo: bar"] ∧
      (processClarifications (.obj [("foo", .str "bar")])).length = 1 := by
  have h := processClarifications_key_fallback [("foo", .str "bar")] rfl rfl
  exact ⟨h.1.trans rfl, h.2.trans rfl⟩

end RfxEngine

namespace RfxEngine

/-! ## Architecture rendering facts -/

/-- C3 counterexample: a payload with `architecture_diagram.diagram`
present but `architecture_diagram.proposal` absent does not degrade to
the no-data state: rendering throws a `TypeError` on the unguarded
`proposal.project_info` access. -/
theorem renderArchitectureInfo_missing_proposal_cex :
    renderArchitectureInfo (some (.obj [("architecture_diagram",
        .obj [("diagram", .obj [("mermaid_code", .str "graph TD")])])])) =
      .error "TypeError: Cannot read properties of undefined (reading project_info)" := rfl

/-- C3 amended: a missing or falsy payload and a missing
`architecture_diagram` object degrade to the no-data state, and a
missing `diagram` sub-object alone is tolerated (the mermaid section is
simply empty); but a missing `proposal` sub-object throws instead of
degrading. -/
theorem renderArchitectureInfo_degrade :
    (renderArchitectureInfo none = .ok none) ∧
      (∀ fields : List (String × Json), fields.lookup "architecture_diagram" = none →
        renderArchitectureInfo (some (.obj fields)) = .ok none) ∧
      (∀ (pinfo expl : Json) (services : List Json), pinfo ≠ .null →
        renderArchitectureInfo (some (.obj [("architecture_diagram", .obj
            [("proposal", .obj
              [("project_info", pinfo),
               ("architecture", .obj
                 [("recommended_services", .arr services), ("explanation", expl)])])])])) =
          .ok (some ⟨getField pinfo "title", getField pinfo "customer",
            getField pinfo "generated_at", services, some expl, none, []⟩)) ∧
      (renderArchitectureInfo (some (.obj [("architecture_diagram", .obj [])])) =
        .error "TypeError: Cannot read properties of undefined (reading project_info)") := by
  refine ⟨rfl, ?_, ?_, rfl⟩
  · intro fields h
    unfold renderArchitectureInfo
    rw [show jsGetProp (some (Json.obj fields)) "architecture_diagram" = Except.ok none from by
      simp [jsGetProp, getField, h]]
    rfl
  · intro pinfo expl services hne
    cases pinfo with
    | null => exact absurd rfl hne
    | bool b => rfl
    | num n => rfl
    | str s => rfl
    | arr xs => rfl
    | obj fs => rfl

/-- C3 witness: the degradation facts at concrete payloads. -/
theorem renderArchitectureInfo_degrade_wit :
    renderArchitectureInfo (some (.obj [("other", .num 1)])) = .ok none ∧
      renderArchitectureInfo (some (.obj [("architecture_diagram", .obj
          [("proposal", .obj
            [("project_info", .obj [("title", .str "T")]),
             ("architecture", .obj
               [("recommended_services", .arr [.str "EC2"]),
                ("explanation", .str "why")])])])])) =
        .ok (some ⟨some (.str "T"), none, none, [.str "EC2"], some (.str "why"), none, []⟩) := by
  obtain ⟨h0, h1, h2, h3⟩ := renderArchitectureInfo_degrade
  refine ⟨h1 [("other", .num 1)] rfl, ?_⟩
  have h := h2 (.obj [("title", .str "T")]) (.str "why") [.str "EC2"] (by intro h; cases h)
  exact h.trans rfl

end RfxEngine

namespace RfxEngine

/-! ## Round trip of the cache serialization -/

/-- Sizes are positive. -/
theorem jsize_pos (j : Json) : 1 ≤ jsize j := by
  cases j <;> simp only [jsize] <;> omega

/-- Element-list sizes are positive. -/
theorem jsizeL_pos (xs : List Json) : 1 ≤ jsizeL xs := by
  cases xs <;> simp only [jsizeL] <;> omega

/-- Member-list sizes are positive. -/
theorem jsizeM_pos (fs : List (String × Json)) : 1 ≤ jsizeM fs := by
  cases fs with
  | nil => simp only [jsizeM]; omega
  | cons kv t => obtain ⟨k, v⟩ := kv; simp only [jsizeM]; omega

/-- Digit characters are digits. -/
theorem digitChar_isDigit (n : Nat) (h : n < 10) : (decChar n).isDigit = true := by
  interval_cases n <;> decide

/-- Digit characters decode to their value. -/
theorem digitVal_digitChar (n : Nat) (h : n < 10) : digitVal (decChar n) = n := by
  interval_cases n <;> decide

/-- The fuelled digit printer is fuel-invariant above the argument. -/
theorem natDigitsAux_congr (n : Nat) : ∀ f g, n < f → n < g →
    natDigitsAux f n = natDigitsAux g n := by
  induction n using Nat.strong_induction_on with
  | _ n ih =>
    intro f g hf hg
    obtain ⟨f, rfl⟩ : ∃ k, f = k + 1 := ⟨f - 1, by omega⟩
    obtain ⟨g, rfl⟩ : ∃ k, g = k + 1 := ⟨g - 1, by omega⟩
    by_cases h10 : n < 10
    · simp [natDigitsAux, h10]
    · have hdiv : n / 10 < n := Nat.div_lt_self (by omega) (by omega)
      simp only [natDigitsAux, h10, if_false]
      rw [ih (n / 10) hdiv f g (by omega) (by omega)]

/-- Unfolding equation of the digit printer. -/
theorem natDigits_eq (n : Nat) : natDigits n =
    if n < 10 then [decChar n] else natDigits (n / 10) ++ [decChar (n % 10)] := by
  show natDigitsAux (n + 1) n = _
  by_cases h10 : n < 10
  · simp [natDigitsAux, h10]
  · have hdiv : n / 10 < n := Nat.div_lt_self (by omega) (by omega)
    simp only [natDigitsAux, h10, if_false]
    rw [natDigitsAux_congr (n / 10) n (n / 10 + 1) (by omega) (by omega)]
    rfl

/-- The digit printer never returns the empty list. -/
theorem natDigits_ne_nil (n : Nat) : natDigits n ≠ [] := by
  rw [natDigits_eq]
  by_cases h10 : n < 10 <;> simp [h10]

/-- Every printed digit character is a digit. -/
theorem natDigits_isDigit (n : Nat) : ∀ c ∈ natDigits n, c.isDigit = true := by
  induction n using Nat.strong_induction_on with
  | _ n ih =>
    rw [natDigits_eq]
    by_cases h10 : n < 10
    · simp only [h10, if_true, List.mem_singleton]
      rintro c rfl
      exact digitChar_isDigit n h10
    · have hdiv : n / 10 < n := Nat.div_lt_self (by omega) (by omega)
      simp only [h10, if_false, List.mem_append, List.mem_singleton]
      rintro c (hc | rfl)
      · exact ih (n / 10) hdiv c hc
      · exact digitChar_isDigit (n % 10) (Nat.mod_lt _ (by omega))

/-- The digit scanner stops at a non-digit boundary. -/
theorem parseNatAux_stop (acc : Nat) (rest : List Char) (h : headNotDigit rest = true) :
    readDigits acc rest = (acc, rest) := by
  cases rest with
  | nil => rfl
  | cons c t =>
    have : c.isDigit = false := by simpa [headNotDigit] using h
    simp [readDigits, this]

/-- The digit scanner consumes a printed number whole, shifting the
accumulator. -/
theorem parseNatAux_digits (n : Nat) : ∀ (acc : Nat) (rest : List Char),
    readDigits acc (natDigits n ++ rest) =
      readDigits (acc * 10 ^ (natDigits n).length + n) rest := by
  induction n using Nat.strong_induction_on with
  | _ n ih =>
    intro acc rest
    by_cases h10 : n < 10
    · rw [natDigits_eq]
      simp only [h10, if_true, List.singleton_append, List.length_singleton]
      rw [readDigits]
      simp [digitChar_isDigit n h10, digitVal_digitChar n h10]
    · have hdiv : n / 10 < n := Nat.div_lt_self (by omega) (by omega)
      have hmod : n % 10 < 10 := Nat.mod_lt _ (by omega)
      conv_lhs => rw [natDigits_eq]
      conv_rhs => rw [natDigits_eq]
      simp only [h10, if_false, List.append_assoc, List.singleton_append, List.length_append,
        List.length_singleton]
      rw [ih (n / 10) hdiv acc (decChar (n % 10) :: rest)]
      rw [readDigits]
      simp only [digitChar_isDigit (n % 10) hmod, if_true, digitVal_digitChar (n % 10) hmod]
      have hdm := Nat.div_add_mod n 10
      have : (acc * 10 ^ (natDigits (n / 10)).length + n / 10) * 10 + n % 10 =
          acc * 10 ^ ((natDigits (n / 10)).length + 1) + n := by
        rw [pow_succ]
        ring_nf
        omega
      rw [this]

/-- The string-body parser inverts the string-body encoder. -/
theorem parseStrAux_encStr (cs : List Char) : ∀ rest : List Char,
    readStringBody (encStr cs ++ rest) = some (cs, rest) := by
  induction cs with
  | nil => intro rest; rfl
  | cons c t ih =>
    intro rest
    by_cases h1 : c = '"'
    · subst h1; simp [encStr, escChar, readStringBody, decodeEsc, ih]
    · by_cases h2 : c = '\\'
      · subst h2; simp [encStr, escChar, readStringBody, decodeEsc, ih]
      · by_cases h3 : c = '\n'
        · subst h3; simp [encStr, escChar, readStringBody, decodeEsc, ih]
        · by_cases h4 : c = '\r'
          · subst h4; simp [encStr, escChar, readStringBody, decodeEsc, ih]
          · by_cases h5 : c = '\t'
            · subst h5; simp [encStr, escChar, readStringBody, decodeEsc, ih]
            · simp [encStr, escChar, readStringBody, h1, h2, h3, h4, h5, ih]

end RfxEngine

namespace RfxEngine

/-- Null literal branch of the value parser. -/
theorem parseVal_null (f : Nat) (r : List Char) :
    readValue (f + 1) ('n' :: 'u' :: 'l' :: 'l' :: r) = some (.null, r) := rfl

/-- True literal branch of the value parser. -/
theorem parseVal_true (f : Nat) (r : List Char) :
    readValue (f + 1) ('t' :: 'r' :: 'u' :: 'e' :: r) = some (.bool true, r) := rfl

/-- False literal branch of the value parser. -/
theorem parseVal_false (f : Nat) (r : List Char) :
    readValue (f + 1) ('f' :: 'a' :: 'l' :: 's' :: 'e' :: r) = some (.bool false, r) := rfl

/-- String branch of the value parser. -/
theorem parseVal_str (f : Nat) (rest : List Char) :
    readValue (f + 1) ('"' :: rest) = (readStringBody rest).map fun p => (.str ⟨p.1⟩, p.2) := rfl

/-- Empty-array branch of the value parser. -/
theorem parseVal_arr_nil (f : Nat) (r : List Char) :
    readValue (f + 1) ('[' :: ']' :: r) = some (.arr [], r) := rfl

/-- Nonempty-array branch of the value parser. -/
theorem parseVal_arr_cons (f : Nat) (c : Char) (cs : List Char) (hc : c ≠ ']') :
    readValue (f + 1) ('[' :: c :: cs) =
      (readElements f (c :: cs)).map fun p => (.arr p.1, p.2) := by
  show (match c :: cs with
      | ']' :: r => some (Json.arr [], r)
      | _ => (readElements f (c :: cs)).map fun p : List Json × List Char => (Json.arr p.1, p.2)) =
    (readElements f (c :: cs)).map fun p : List Json × List Char => (Json.arr p.1, p.2)
  split
  · rename_i r heq
    cases heq
    exact absurd rfl hc
  · rfl

/-- Empty-object branch of the value parser. -/
theorem parseVal_obj_nil (f : Nat) (r : List Char) :
    readValue (f + 1) ('\x7b' :: '\x7d' :: r) = some (.obj [], r) := rfl

/-- Nonempty-object branch of the value parser. -/
theorem parseVal_obj_cons (f : Nat) (c : Char) (cs : List Char) (hc : c ≠ '\x7d') :
    readValue (f + 1) ('\x7b' :: c :: cs) =
      (readMembers f (c :: cs)).map fun p => (.obj p.1, p.2) := by
  show (match c :: cs with
      | '\x7d' :: r => some (Json.obj [], r)
      | _ =>
        (readMembers f (c :: cs)).map
          fun p : List (String × Json) × List Char => (Json.obj p.1, p.2)) =
    (readMembers f (c :: cs)).map
      fun p : List (String × Json) × List Char => (Json.obj p.1, p.2)
  split
  · rename_i r heq
    cases heq
    exact absurd rfl hc
  · rfl

/-- Negative-number branch of the value parser. -/
theorem parseVal_neg (f : Nat) (d : Char) (r2 : List Char) (hd : d.isDigit = true) :
    readValue (f + 1) ('-' :: d :: r2) =
      some (.num (-((readDigits (digitVal d) r2).1 : Int)),
        (readDigits (digitVal d) r2).2) := by
  simp [readValue, hd]

/-- Digit branch of the value parser. -/
theorem parseVal_digit (f : Nat) (c : Char) (rest : List Char) (hc : c.isDigit = true) :
    readValue (f + 1) (c :: rest) =
      some (.num ((readDigits (digitVal c) rest).1 : Int),
        (readDigits (digitVal c) rest).2) := by
  have hn : ¬c = 'n' := by rintro rfl; exact absurd hc (by decide)
  have ht : ¬c = 't' := by rintro rfl; exact absurd hc (by decide)
  have hf : ¬c = 'f' := by rintro rfl; exact absurd hc (by decide)
  have hq : ¬c = '"' := by rintro rfl; exact absurd hc (by decide)
  have hb : ¬c = '[' := by rintro rfl; exact absurd hc (by decide)
  have hcb : ¬c = '\x7b' := by rintro rfl; exact absurd hc (by decide)
  have hm : ¬c = '-' := by rintro rfl; exact absurd hc (by decide)
  simp [readValue, hn, ht, hf, hq, hb, hcb, hm, hc]

/-- The integer printer inverts through the value parser. -/
theorem parseVal_intChars (n : Int) (f : Nat) (rest : List Char)
    (hrest : headNotDigit rest = true) :
    readValue (f + 1) (intChars n ++ rest) = some (.num n, rest) := by
  have hscan : ∀ m : Nat, readDigits 0 (natDigits m ++ rest) = (m, rest) := by
    intro m
    rw [parseNatAux_digits m 0 rest, parseNatAux_stop _ _ hrest]
    simp
  by_cases hneg : n < 0
  · rcases hcons : natDigits (-n).toNat with _ | ⟨d, ds⟩
    · exact absurd hcons (natDigits_ne_nil _)
    · have hd : d.isDigit = true := natDigits_isDigit _ d (by rw [hcons]; simp)
      have h2 := hscan (-n).toNat
      rw [hcons] at h2
      have hone : readDigits 0 ((d :: ds) ++ rest) =
          readDigits (digitVal d) (ds ++ rest) := by
        simp [readDigits, hd]
      have hval : readDigits (digitVal d) (ds ++ rest) = ((-n).toNat, rest) :=
        hone.symm.trans h2
      have hstep : readValue (f + 1) (intChars n ++ rest) =
          readValue (f + 1) ('-' :: d :: (ds ++ rest)) := by
        rw [intChars, if_pos hneg, hcons]
        rfl
      rw [hstep, parseVal_neg f d (ds ++ rest) hd, hval]
      have hcast : ((-n).toNat : Int) = -n := Int.toNat_of_nonneg (by omega)
      simp [hcast]
  · rcases hcons : natDigits n.toNat with _ | ⟨d, ds⟩
    · exact absurd hcons (natDigits_ne_nil _)
    · have hd : d.isDigit = true := natDigits_isDigit _ d (by rw [hcons]; simp)
      have h2 := hscan n.toNat
      rw [hcons] at h2
      have hone : readDigits 0 ((d :: ds) ++ rest) =
          readDigits (digitVal d) (ds ++ rest) := by
        simp [readDigits, hd]
      have hval : readDigits (digitVal d) (ds ++ rest) = (n.toNat, rest) :=
        hone.symm.trans h2
      have hstep : readValue (f + 1) (intChars n ++ rest) =
          readValue (f + 1) (d :: (ds ++ rest)) := by
        rw [intChars, if_neg hneg, hcons]
        rfl
      rw [hstep, parseVal_digit f d (ds ++ rest) hd, hval]
      have hcast : (n.toNat : Int) = n := Int.toNat_of_nonneg (by omega)
      simp [hcast]

/-- The serialized form of a value starts with a character that closes
no bracket. -/
theorem strData_cons (j : Json) :
    ∃ c cs, strData j = c :: cs ∧ c ≠ ']' ∧ c ≠ '\x7d' := by
  cases j with
  | null => refine ⟨'n', _, rfl, ?_, ?_⟩ <;> decide
  | bool b =>
    cases b with
    | false => refine ⟨'f', _, rfl, ?_, ?_⟩ <;> decide
    | true => refine ⟨'t', _, rfl, ?_, ?_⟩ <;> decide
  | num n =>
    show ∃ c cs, intChars n = c :: cs ∧ _
    by_cases hneg : n < 0
    · rw [intChars, if_pos hneg]
      exact ⟨'-', _, rfl, by decide, by decide⟩
    · rw [intChars, if_neg hneg]
      rcases hcons : natDigits n.toNat with _ | ⟨d, ds⟩
      · exact absurd hcons (natDigits_ne_nil _)
      · have hd : d.isDigit = true := natDigits_isDigit _ d (by rw [hcons]; simp)
        refine ⟨d, ds, rfl, ?_, ?_⟩ <;> rintro rfl <;> exact absurd hd (by decide)
  | str s => refine ⟨'"', _, rfl, ?_, ?_⟩ <;> decide
  | arr xs => refine ⟨'[', _, rfl, ?_, ?_⟩ <;> decide
  | obj fs => refine ⟨'\x7b', _, rfl, ?_, ?_⟩ <;> decide

end RfxEngine

namespace RfxEngine

/-- One-step unfolding of the element-list parser. -/
theorem parseElems_succ (f : Nat) (input : List Char) :
    readElements (f + 1) input =
      match readValue f input with
      | some (v, rest) =>
        match rest with
        | ',' :: rest2 => (readElements f rest2).map fun p => (v :: p.1, p.2)
        | ']' :: rest2 => some ([v], rest2)
        | _ => none
      | none => none := rfl

/-- One-step unfolding of the member-list parser on a quote. -/
theorem parseMembers_succ (f : Nat) (rest : List Char) :
    readMembers (f + 1) ('"' :: rest) =
      match readStringBody rest with
      | some (k, rest2) =>
        match rest2 with
        | ':' :: rest3 =>
          match readValue f rest3 with
          | some (v, rest4) =>
            match rest4 with
            | ',' :: rest5 => (readMembers f rest5).map fun p => ((⟨k⟩, v) :: p.1, p.2)
            | '\x7d' :: rest5 => some ([(⟨k⟩, v)], rest5)
            | _ => none
          | none => none
        | _ => none
      | none => none := rfl

/-- Head shape of a nonempty serialized element list. -/
theorem strElems_cons_exists (y : Json) (t : List Json) :
    ∃ T, strElems (y :: t) = strData y ++ T := by
  cases t with
  | nil => exact ⟨[']'], rfl⟩
  | cons z t2 => exact ⟨',' :: strElems (z :: t2), rfl⟩

/-- Head shape of a nonempty serialized member list. -/
theorem strMembers_cons_exists (kv : String × Json) (t : List (String × Json)) :
    ∃ T, strMembers (kv :: t) = '"' :: T := by
  obtain ⟨k, v⟩ := kv
  cases t with
  | nil => exact ⟨_, rfl⟩
  | cons m t2 => exact ⟨_, rfl⟩

/-- The parser inverts the serializer, given enough fuel: values,
nonempty element lists, and nonempty member lists simultaneously. -/
theorem roundtrip_aux (f : Nat) :
    (∀ (j : Json) (rest : List Char), jsize j < f → headNotDigit rest = true →
      readValue f (strData j ++ rest) = some (j, rest)) ∧
    (∀ (xs : List Json) (rest : List Char), jsizeL xs < f → xs ≠ [] →
      readElements f (strElems xs ++ rest) = some (xs, rest)) ∧
    (∀ (fs : List (String × Json)) (rest : List Char), jsizeM fs < f → fs ≠ [] →
      readMembers f (strMembers fs ++ rest) = some (fs, rest)) := by
  induction f with
  | zero =>
    refine ⟨fun j rest hf => absurd hf (by omega), fun xs rest hf => absurd hf (by omega),
      fun fs rest hf => absurd hf (by omega)⟩
  | succ f ih =>
    obtain ⟨ihV, ihE, ihM⟩ := ih
    refine ⟨?_, ?_, ?_⟩
    · intro j rest hf hrest
      cases j with
      | null => exact parseVal_null f rest
      | bool b =>
        cases b with
        | true => exact parseVal_true f rest
        | false => exact parseVal_false f rest
      | num n => exact parseVal_intChars n f rest hrest
      | str s =>
        show readValue (f + 1) ('"' :: (encStr s.data ++ rest)) = some (.str s, rest)
        rw [parseVal_str, parseStrAux_encStr]
        rfl
      | arr xs =>
        cases xs with
        | nil => exact parseVal_arr_nil f rest
        | cons y t =>
          show readValue (f + 1) ('[' :: (strElems (y :: t) ++ rest)) = some (.arr (y :: t), rest)
          obtain ⟨c, cs, hsplit, hc, _⟩ := strData_cons y
          obtain ⟨T, hT⟩ := strElems_cons_exists y t
          have hshape : strElems (y :: t) ++ rest = c :: (cs ++ (T ++ rest)) := by
            rw [hT, hsplit]
            simp
          rw [hshape, parseVal_arr_cons f c _ hc, ← hshape]
          have hsz : jsizeL (y :: t) < f := by
            simp only [jsize] at hf
            omega
          rw [ihE (y :: t) rest hsz (by simp)]
          rfl
      | obj fs =>
        cases fs with
        | nil => exact parseVal_obj_nil f rest
        | cons kv t =>
          show readValue (f + 1) ('\x7b' :: (strMembers (kv :: t) ++ rest)) =
            some (.obj (kv :: t), rest)
          obtain ⟨T, hT⟩ := strMembers_cons_exists kv t
          have hshape : strMembers (kv :: t) ++ rest = '"' :: (T ++ rest) := by
            rw [hT]
            rfl
          rw [hshape, parseVal_obj_cons f '"' _ (by decide), ← hshape]
          have hsz : jsizeM (kv :: t) < f := by
            simp only [jsize] at hf
            omega
          rw [ihM (kv :: t) rest hsz (by simp)]
          rfl
    · intro xs rest hsize hne
      cases xs with
      | nil => exact absurd rfl hne
      | cons x t =>
        cases t with
        | nil =>
          show readElements (f + 1) ((strData x ++ [']']) ++ rest) = some ([x], rest)
          simp only [List.append_assoc, List.singleton_append]
          have hV : readValue f (strData x ++ (']' :: rest)) = some (x, ']' :: rest) :=
            ihV x (']' :: rest)
              (by simp only [jsizeL] at hsize ⊢; omega) rfl
          rw [parseElems_succ, hV]
          rfl
        | cons z t2 =>
          show readElements (f + 1) ((strData x ++ ',' :: strElems (z :: t2)) ++ rest) =
            some (x :: z :: t2, rest)
          simp only [List.append_assoc, List.cons_append]
          have hV : readValue f (strData x ++ (',' :: (strElems (z :: t2) ++ rest))) =
              some (x, ',' :: (strElems (z :: t2) ++ rest)) :=
            ihV x (',' :: (strElems (z :: t2) ++ rest))
              (by simp only [jsizeL] at hsize; omega) rfl
          rw [parseElems_succ, hV]
          show (readElements f (strElems (z :: t2) ++ rest)).map
            (fun p => (x :: p.1, p.2)) = some (x :: z :: t2, rest)
          rw [ihE (z :: t2) rest
            (by simp only [jsizeL] at hsize ⊢; omega) (by simp)]
          rfl
    · intro fs rest hsize hne
      cases fs with
      | nil => exact absurd rfl hne
      | cons kv t =>
        obtain ⟨k, v⟩ := kv
        cases t with
        | nil =>
          show readMembers (f + 1)
              ((('"' :: encStr k.data) ++ ':' :: strData v ++ ['\x7d']) ++ rest) =
            some ([(k, v)], rest)
          simp only [List.append_assoc, List.cons_append, List.singleton_append]
          rw [parseMembers_succ, parseStrAux_encStr]
          show (match readValue f (strData v ++ ('\x7d' :: rest)) with
            | some (v2, rest4) =>
              match rest4 with
              | ',' :: rest5 =>
                (readMembers f rest5).map fun p => ((⟨k.data⟩, v2) :: p.1, p.2)
              | '\x7d' :: rest5 => some ([(⟨k.data⟩, v2)], rest5)
              | _ => none
            | none => none) = some ([(k, v)], rest)
          have hV : readValue f (strData v ++ ('\x7d' :: rest)) = some (v, '\x7d' :: rest) :=
            ihV v ('\x7d' :: rest)
              (by simp only [jsizeM] at hsize ⊢; omega) rfl
          rw [hV]
          rfl
        | cons m t2 =>
          show readMembers (f + 1)
              ((('"' :: encStr k.data) ++ ':' :: strData v ++ ',' :: strMembers (m :: t2)) ++
                rest) =
            some ((k, v) :: m :: t2, rest)
          simp only [List.append_assoc, List.cons_append]
          rw [parseMembers_succ, parseStrAux_encStr]
          show (match readValue f (strData v ++ (',' :: (strMembers (m :: t2) ++ rest))) with
            | some (v2, rest4) =>
              match rest4 with
              | ',' :: rest5 =>
                (readMembers f rest5).map fun p => ((⟨k.data⟩, v2) :: p.1, p.2)
              | '\x7d' :: rest5 => some ([(⟨k.data⟩, v2)], rest5)
              | _ => none
            | none => none) = some ((k, v) :: m :: t2, rest)
          have hV : readValue f (strData v ++ (',' :: (strMembers (m :: t2) ++ rest))) =
              some (v, ',' :: (strMembers (m :: t2) ++ rest)) :=
            ihV v (',' :: (strMembers (m :: t2) ++ rest))
              (by simp only [jsizeM] at hsize; omega) rfl
          rw [hV]
          show (readMembers f (strMembers (m :: t2) ++ rest)).map
            (fun p => ((⟨k.data⟩, v) :: p.1, p.2)) = some ((k, v) :: m :: t2, rest)
          rw [ihM (m :: t2) rest
            (by simp only [jsizeM] at hsize ⊢; omega) (by simp)]
          rfl

end RfxEngine

namespace RfxEngine

mutual
/-- The fuel bound: a value's size is dominated by its serialized
length. -/
theorem jsize_le_strData (j : Json) : jsize j ≤ 2 * (strData j).length + 1 := by
  cases j with
  | null => simp [jsize, strData]
  | bool b => cases b <;> simp [jsize, strData]
  | num n => simp [jsize]
  | str s => simp [jsize]
  | arr xs =>
    have h := jsizeL_le_strElems xs
    show jsizeL xs + 1 ≤ 2 * ('[' :: strElems xs).length + 1
    simp only [List.length_cons]
    omega
  | obj fs =>
    have h := jsizeM_le_strMembers fs
    show jsizeM fs + 1 ≤ 2 * ('\x7b' :: strMembers fs).length + 1
    simp only [List.length_cons]
    omega
termination_by structural j

/-- The fuel bound for element lists. -/
theorem jsizeL_le_strElems (xs : List Json) : jsizeL xs ≤ 2 * (strElems xs).length + 1 := by
  cases xs with
  | nil => simp [jsizeL, strElems]
  | cons x t =>
    cases t with
    | nil =>
      have h := jsize_le_strData x
      show jsize x + jsizeL [] + 1 ≤ 2 * (strData x ++ [']']).length + 1
      simp only [jsizeL, List.length_append, List.length_singleton]
      omega
    | cons y t2 =>
      have h1 := jsize_le_strData x
      have h2 := jsizeL_le_strElems (y :: t2)
      show jsize x + jsizeL (y :: t2) + 1 ≤
        2 * (strData x ++ ',' :: strElems (y :: t2)).length + 1
      simp only [List.length_append, List.length_cons]
      omega
termination_by structural xs

/-- The fuel bound for member lists. -/
theorem jsizeM_le_strMembers (fs : List (String × Json)) :
    jsizeM fs ≤ 2 * (strMembers fs).length + 1 := by
  cases fs with
  | nil => simp [jsizeM, strMembers]
  | cons kv t =>
    obtain ⟨k, v⟩ := kv
    cases t with
    | nil =>
      have h := jsize_le_strData v
      show jsize v + jsizeM [] + 1 ≤
        2 * (('"' :: encStr k.data) ++ ':' :: strData v ++ ['\x7d']).length + 1
      simp only [jsizeM, List.length_append, List.length_cons, List.length_singleton]
      omega
    | cons m t2 =>
      have h1 := jsize_le_strData v
      have h2 := jsizeM_le_strMembers (m :: t2)
      show jsize v + jsizeM (m :: t2) + 1 ≤
        2 * (('"' :: encStr k.data) ++ ':' :: strData v ++ ',' :: strMembers (m :: t2)).length + 1
      simp only [List.length_append, List.length_cons]
      omega
termination_by structural fs
end

/-- Full round trip of the serializer through the parser. -/
theorem parseJson_stringify (j : Json) : parseJson (stringify j) = some j := by
  have hsz : jsize j < 2 * (strData j).length + 3 := by
    have := jsize_le_strData j
    omega
  have h := (roundtrip_aux (2 * (strData j).length + 3)).1 j [] hsz rfl
  rw [List.append_nil] at h
  show (match readValue (2 * (strData j).length + 3) (strData j) with
    | some (v, []) => some v
    | _ => none) = some j
  rw [h]

end RfxEngine

namespace RfxEngine

/-- Serialized values are never the empty string. -/
theorem stringify_ne_empty (j : Json) : (stringify j).isEmpty = false := by
  obtain ⟨c, cs, hsplit, _, _⟩ := strData_cons j
  have : stringify j = ⟨c :: cs⟩ := by rw [stringify, hsplit]
  rw [this]
  rw [Bool.eq_false_iff]
  intro h
  have h2 := (String.isEmpty_iff _).mp h
  have := congrArg String.data h2
  simp at this

/-- C9: writing a pipeline result to the cache and reading it back
yields the same value, hence the same role classification; a corrupted
stored value and a missing slot both read back as empty rather than
raising.  The well-formedness hypothesis marks the string fragment on
which the serialization model coincides with `JSON.stringify`. -/
theorem cache_roundtrip (j : Json) (hwf : wfJson j = true) :
    readCache (some (writeCache j)) = some j ∧
      classifyResults (readCache (some (writeCache j))) = classifyResults (some j) ∧
      readCache (some "not json at all") = none ∧
      readCache none = none := by
  have hread : readCache (some (writeCache j)) = some j := by
    show (if (stringify j).isEmpty then none else parseJson (stringify j)) = some j
    rw [stringify_ne_empty j]
    simp only [Bool.false_eq_true, if_false]
    exact parseJson_stringify j
  exact ⟨hread, by rw [hread], rfl, rfl⟩

/-- C9 witness: the round trip at a concrete pipeline result. -/
theorem cache_roundtrip_wit :
    readCache (some (writeCache (.obj [("status", .str "success"),
        ("steps", .arr [.obj [("step", .str "Pricing Estimate"),
          ("output", .str "user/pricing_outputs/estimate.json"),
          ("status", .str "success")]])]))) =
      some (.obj [("status", .str "success"),
        ("steps", .arr [.obj [("step", .str "Pricing Estimate"),
          ("output", .str "user/pricing_outputs/estimate.json"),
          ("status", .str "success")]])]) ∧
    wfJson (.obj [("status", .str "success"),
        ("steps", .arr [.obj [("step", .str "Pricing Estimate"),
          ("output", .str "user/pricing_outputs/estimate.json"),
          ("status", .str "success")]])]) = true := by
  refine ⟨?_, rfl⟩
  exact (cache_roundtrip (.obj [("status", .str "success"),
    ("steps", .arr [.obj [("step", .str "Pricing Estimate"),
      ("output", .str "user/pricing_outputs/estimate.json"),
      ("status", .str "success")]])]) rfl).1

end RfxEngine
